import Mathlib

/-!
Shallow embedding of the codebase-intelligence ingestion/retrieval pipeline
(Next.js API routes over a vector store), for checking its specification.
Strings from the TypeScript source are modelled as `List Char`.
-/

namespace CodebaseIntel

/-- Character list of a string literal, the representation used throughout. -/
def chars (s : String) : List Char := s.data

/-- JS `Array.prototype`-style: the segment of `s` strictly after the last
occurrence of `sep`, or `none` when `sep` does not occur in `s`. -/
def afterLast (sep : Char) : List Char → Option (List Char)
  | [] => none
  | c :: rest =>
    match afterLast sep rest with
    | some seg => some seg
    | none => if c = sep then some rest else none

/-- Whether `seg` ends in `.git` with at least one character before it
(the condition under which the regex group `([^/]+?)(\.git)?$` strips the
suffix: the lazy group must still capture at least one character). -/
def gitSuffixed (seg : List Char) : Bool :=
  decide (4 < seg.length) && decide (seg.drop (seg.length - 4) = chars ".git")

/-- Strip one trailing `.git` as the regex `\/([^/]+?)(\.git)?$` does. -/
def dropGit (seg : List Char) : List Char :=
  if gitSuffixed seg then seg.take (seg.length - 4) else seg

/-- `extractRepoName` from `src/app/api/ingest/route.ts`: the regex
`\/([^/]+?)(\.git)?$` matches the segment after the last `/` when that
segment is non-empty (stripping a `.git` suffix), else yields `"default"`. -/
def extractRepoName (repoUrl : List Char) : List Char :=
  match afterLast '/' repoUrl with
  | none => chars "default"
  | some [] => chars "default"
  | some seg => dropGit seg

/-- The JS ASCII test `/^[\x00-\x7F]*$/` used in `ingestRepo`. -/
def allAscii (s : List Char) : Bool :=
  s.all (fun c => c.toNat ≤ 0x7F)

/-- `leadsWith pre s`: `s` starts with the segment `pre`. -/
def leadsWith : List Char → List Char → Bool
  | [], _ => true
  | _ :: _, [] => false
  | p :: ps, c :: cs => (p = c) && leadsWith ps cs

/-- JS `String.prototype.includes`: substring containment, used both by
`ingestRepo` and by the zod schema check `.includes("github.com")`. -/
def containsSub (sub : List Char) (s : List Char) : Bool :=
  if leadsWith sub s then true
  else
    match s with
    | [] => false
    | _ :: rest => containsSub sub rest

/-- A loaded document: source path plus text (langchain `Document`). -/
structure Doc where
  source : List Char
  text : List Char
deriving DecidableEq

/-- The external calls / pipeline stages `ingestRepo` can perform, in order:
`describeIndexStats`, `GithubRepoLoader.load`, `splitDocuments`, and
`PineconeStore.fromDocuments` (which embeds and upserts). -/
inductive ExtCall where
  | describeStats
  | loadRepo
  | splitStage
  | embedAndUpsert
deriving DecidableEq

/-- The errors `ingestRepo` throws. -/
inductive IngestErr where
  | nonAsciiUrl
  | nonAsciiToken
  | invalidGithubUrl
  | loadFailed (msg : List Char)
  | upsertFailed (msg : List Char)
deriving DecidableEq

/-- How a completed `ingestRepo` run ended: early return on an existing
namespace, or a full ingestion. -/
inductive IngestOutcome where
  | skipped
  | ingested
deriving DecidableEq

/-- Behaviour of the external collaborators during one `ingestRepo` call:
the `describeIndexStats().namespaces` object (possibly `undefined`, mapping
namespace name to `recordCount`), the loader result, the splitter, and the
embed-and-upsert result. -/
structure IngestEnv where
  statsNamespaces : Option (List (List Char × Nat))
  loadResult : Except (List Char) (List Doc)
  split : List Doc → List Doc
  upsertResult : Except (List Char) Unit

/-- First-key lookup in a JS-object-like association list. -/
def lookupNs : List (List Char × Nat) → List Char → Option Nat
  | [], _ => none
  | (k, v) :: rest, key => if k = key then some v else lookupNs rest key

/-- The JS guard `stats.namespaces && stats.namespaces[repoName]`: the
`namespaces` field is defined and holds an entry for `name` (the entry is an
object, hence truthy whatever its `recordCount`). -/
def namespacePresent (stats : Option (List (List Char × Nat))) (name : List Char) : Bool :=
  match stats with
  | none => false
  | some m => (lookupNs m name).isSome

/-- Claim-side reading (from the spec's words, for comparison with the code):
`describeIndexStats` reports the namespace with record count > 0. -/
def statsReportsPositive (stats : Option (List (List Char × Nat))) (name : List Char) : Bool :=
  match stats with
  | none => false
  | some m =>
    match lookupNs m name with
    | some c => decide (0 < c)
    | none => false

deriving instance DecidableEq for Except

/-- Result of one `ingestRepo` call: the trace of stages reached, the
outcome or thrown error, and how many vectors were upserted. -/
structure IngestResult where
  calls : List ExtCall
  outcome : Except IngestErr IngestOutcome
  upserted : Nat
deriving DecidableEq

/-- `ingestRepo` from `src/app/api/ingest/route.ts`: derive the namespace,
validate ASCII and the `github.com` substring, consult `describeIndexStats`
and skip when the namespace entry exists, otherwise load, split, and
embed-and-upsert. -/
def ingestRepo (repoUrl token : List Char) (env : IngestEnv) : IngestResult :=
  let repoName := extractRepoName repoUrl
  if !(allAscii repoUrl) then ⟨[], .error .nonAsciiUrl, 0⟩
  else if !(allAscii token) then ⟨[], .error .nonAsciiToken, 0⟩
  else if !(containsSub (chars "github.com") repoUrl) then ⟨[], .error .invalidGithubUrl, 0⟩
  else if namespacePresent env.statsNamespaces repoName then
    ⟨[.describeStats], .ok .skipped, 0⟩
  else
    match env.loadResult with
    | .error msg => ⟨[.describeStats, .loadRepo], .error (.loadFailed msg), 0⟩
    | .ok docs =>
      let chunks := env.split docs
      match env.upsertResult with
      | .error msg =>
        ⟨[.describeStats, .loadRepo, .splitStage, .embedAndUpsert], .error (.upsertFailed msg), 0⟩
      | .ok _ =>
        ⟨[.describeStats, .loadRepo, .splitStage, .embedAndUpsert], .ok .ingested, chunks.length⟩

/-- Environment for the `POST /ingest` handler: the ingestion environment
plus zod's `z.string().url()` validator (external library). -/
structure IngestPostEnv where
  ingest : IngestEnv
  isValidUrl : List Char → Bool

/-- `IngestRequestSchema.safeParse` succeeds: `repoUrl` is a valid URL and
contains `github.com`, and `token` has length at least 1. -/
def ingestValidates (isValidUrl : List Char → Bool) (repoUrl token : List Char) : Bool :=
  isValidUrl repoUrl && containsSub (chars "github.com") repoUrl && !(token.isEmpty)

/-- HTTP-level result of `POST /ingest`. -/
structure IngestPostResult where
  status : Nat
  success : Bool
  calls : List ExtCall
deriving DecidableEq

/-- The `POST` handler of `src/app/api/ingest/route.ts`: 400 on schema
validation failure (no external call), otherwise run `ingestRepo` and map
success to 200 and a thrown error to 500. -/
def ingestPOST (env : IngestPostEnv) (repoUrl token : List Char) : IngestPostResult :=
  if ingestValidates env.isValidUrl repoUrl token then
    let r := ingestRepo repoUrl token env.ingest
    match r.outcome with
    | .ok _ => ⟨200, true, r.calls⟩
    | .error _ => ⟨500, false, r.calls⟩
  else ⟨400, false, []⟩

/-! ### Summarize and chat endpoints -/

/-- JSON values as produced by `JSON.parse`. -/
inductive Json where
  | str (s : List Char)
  | num (n : Int)
  | bool (b : Bool)
  | null
  | arr (xs : List Json)
  | obj (fields : List (List Char × Json))

/-- First-key lookup among a JSON object's fields. -/
def lookupField : List (List Char × Json) → List Char → Option Json
  | [], _ => none
  | (k, v) :: rest, key => if k = key then some v else lookupField rest key

/-- JS property access `parsed.key`: a field of an object, `undefined`
otherwise. Accessing a property of `null` throws a TypeError in JS, caught
by the surrounding try/catch; since every field then keeps its default, the
result coincides with returning `none` here. -/
def jsonField : Json → List Char → Option Json
  | .obj fields, key => lookupField fields key
  | _, _ => none

/-- `xs.filter((t) => typeof t === 'string')`, keeping the string payloads. -/
def jsonStrings (xs : List Json) : List (List Char) :=
  xs.filterMap (fun j => match j with | .str s => some s | _ => none)

/-- ASCII whitespace as trimmed by JS `String.prototype.trim`. -/
def isJsWhitespace (c : Char) : Bool :=
  c = ' ' || c = '\t' || c = '\n' || c = '\r' || c = '\x0b' || c = '\x0c'

/-- JS `trim`: drop whitespace from both ends (modelled for ASCII). -/
def trimChars (s : List Char) : List Char :=
  ((s.dropWhile isJsWhitespace).reverse.dropWhile isJsWhitespace).reverse

/-- The replacement `jsonText.replace(/^```(?:json)?\n?/, '')`, applied when
`jsonText` starts with three backticks: drop them, then an optional `json`,
then an optional newline. -/
def dropLeadingFence (j : List Char) : List Char :=
  let j1 := j.drop 3
  let j2 := if leadsWith (chars "json") j1 then j1.drop 4 else j1
  if leadsWith (chars "\n") j2 then j2.drop 1 else j2

/-- The replacement `.replace(/\n?```$/, '')`: drop a trailing fence with an
optional preceding newline (the leftmost-longest match takes the newline). -/
def dropTrailingFence (u : List Char) : List Char :=
  if leadsWith ((chars "\n```").reverse) u.reverse then (u.reverse.drop 4).reverse
  else if leadsWith ((chars "```").reverse) u.reverse then (u.reverse.drop 3).reverse
  else u

/-- The code-fence unwrapping of the model's raw text in
`src/app/api/summarize/route.ts`: trim, and if the result starts with three
backticks, strip the leading and trailing fence markers. -/
def stripFence (analysisText : List Char) : List Char :=
  let jsonText := trimChars analysisText
  if leadsWith (chars "```") jsonText then dropTrailingFence (dropLeadingFence jsonText)
  else jsonText

/-- The `analysis` object assembled by summarize. -/
structure Analysis where
  summary : List Char
  techStack : List (List Char)
  patterns : List (List Char)
deriving DecidableEq

/-- The hardcoded fallback summary string. -/
def defaultSummary : List Char :=
  chars "A full-stack application for managing and analyzing codebases with AI-powered insights."

/-- The hardcoded fallback patterns list. -/
def defaultPatterns : List (List Char) :=
  [chars "Component-based Architecture", chars "REST API", chars "Event-driven"]

/-- `parsed.summary && typeof parsed.summary === 'string'`: a present,
non-empty string field (the empty string is falsy in JS). -/
def isTruthyStrField (o : Option Json) : Bool :=
  match o with
  | some (.str s) => !s.isEmpty
  | _ => false

/-- `Array.isArray(field)` for an optional field. -/
def isArrField (o : Option Json) : Bool :=
  match o with
  | some (.arr _) => true
  | _ => false

/-- The parse-and-validate step of summarize: start from the field defaults
(`uniqueLanguages`-derived tech stack, generic summary, fixed patterns),
unwrap the fence, `JSON.parse`, and overwrite each field only when it has
the accepted shape; a parse failure keeps all defaults. -/
def parseAnalysis (parse : List Char → Option Json) (dfltTech : List (List Char))
    (analysisText : List Char) : Analysis :=
  let dflt : Analysis := ⟨defaultSummary, dfltTech, defaultPatterns⟩
  match parse (stripFence analysisText) with
  | none => dflt
  | some parsed =>
    { summary :=
        match jsonField parsed (chars "summary") with
        | some (.str s) => if s.isEmpty then dflt.summary else s
        | _ => dflt.summary
    , techStack :=
        match jsonField parsed (chars "techStack") with
        | some (.arr xs) => jsonStrings xs
        | _ => dflt.techStack
    , patterns :=
        match jsonField parsed (chars "patterns") with
        | some (.arr xs) => jsonStrings xs
        | _ => dflt.patterns }

/-- The metadata carried by a Pinecone match (`src/lib/types.ts`). -/
structure MatchMeta where
  source : Option (List Char)
  text : Option (List Char)
deriving DecidableEq

/-- A Pinecone query match (`PineconeMatch` in `src/lib/types.ts`). -/
structure PineconeMatch where
  metadata : Option MatchMeta
deriving DecidableEq

/-- `m.metadata?.text`. -/
def matchText (m : PineconeMatch) : Option (List Char) :=
  match m.metadata with
  | some md => md.text
  | none => none

/-- `m.metadata?.source`. -/
def matchSource (m : PineconeMatch) : Option (List Char) :=
  match m.metadata with
  | some md => md.source
  | none => none

/-- `matches.map((m) => m.metadata?.text).filter(Boolean)`: present,
non-empty texts (the empty string is falsy). -/
def truthyTexts (ms : List PineconeMatch) : List (List Char) :=
  (ms.filterMap matchText).filter (fun t => !t.isEmpty)

/-- The present, non-empty sources among the matches. -/
def truthySources (ms : List PineconeMatch) : List (List Char) :=
  (ms.filterMap matchSource).filter (fun s => !s.isEmpty)

/-- `.join('\n\n')` over the truthy texts. -/
def joinContext (ms : List PineconeMatch) : List Char :=
  List.intercalate (chars "\n\n") (truthyTexts ms)

/-- `source.split('.').pop() || 'unknown'`: the part after the last dot,
the whole string when there is no dot, `unknown` when that part is empty. -/
def extOf (s : List Char) : List Char :=
  match afterLast '.' s with
  | none => s
  | some [] => chars "unknown"
  | some e => e

/-- JS `Set.prototype.add`: append iff not already present. -/
def insertOnce {α : Type} [DecidableEq α] (xs : List α) (x : α) : List α :=
  if x ∈ xs then xs else xs ++ [x]

/-- The contents of a JS `Set` built by inserting `l` in order. -/
def jsSetOf {α : Type} [DecidableEq α] (l : List α) : List α :=
  l.foldl insertOnce []

/-- `fileExtensions.set(ext, (fileExtensions.get(ext) || 0) + 1)` on an
insertion-ordered map. -/
def mapBump : List (List Char × Nat) → List Char → List (List Char × Nat)
  | [], e => [(e, 1)]
  | (k, v) :: rest, e => if k = e then (k, v + 1) :: rest else (k, v) :: mapBump rest e

/-- `(text.match(/\n/g) || []).length`. -/
def countNewlines (t : List Char) : Nat :=
  t.countP (fun c => c = '\n')

/-- The mutable accumulators of summarize's `forEach` over the matches. -/
structure StatsAcc where
  sources : List (List Char)
  extCounts : List (List Char × Nat)
  totalLines : Nat

/-- One iteration of the `forEach`: record a truthy source (set insert and
extension bump) and add newline count + 1 for a truthy text. -/
def statsStep (acc : StatsAcc) (m : PineconeMatch) : StatsAcc :=
  let acc1 :=
    match matchSource m with
    | some s =>
      if s.isEmpty then acc
      else { acc with sources := insertOnce acc.sources s
                    , extCounts := mapBump acc.extCounts (extOf s) }
    | none => acc
  match matchText m with
  | some t =>
    if t.isEmpty then acc1
    else { acc1 with totalLines := acc1.totalLines + countNewlines t + 1 }
  | none => acc1

/-- The full `forEach` over the query matches. -/
def computeStats (ms : List PineconeMatch) : StatsAcc :=
  ms.foldl statsStep ⟨[], [], 0⟩

/-- The fixed `languageMap` extension → language table. -/
def langOf (ext : List Char) : Option (List Char) :=
  if ext = chars "ts" then some (chars "TypeScript")
  else if ext = chars "tsx" then some (chars "TypeScript")
  else if ext = chars "js" then some (chars "JavaScript")
  else if ext = chars "jsx" then some (chars "JavaScript")
  else if ext = chars "py" then some (chars "Python")
  else if ext = chars "java" then some (chars "Java")
  else if ext = chars "cpp" then some (chars "C++")
  else if ext = chars "c" then some (chars "C")
  else if ext = chars "rs" then some (chars "Rust")
  else if ext = chars "go" then some (chars "Go")
  else if ext = chars "rb" then some (chars "Ruby")
  else if ext = chars "php" then some (chars "PHP")
  else if ext = chars "sql" then some (chars "SQL")
  else if ext = chars "json" then some (chars "JSON")
  else if ext = chars "yaml" then some (chars "YAML")
  else if ext = chars "html" then some (chars "HTML")
  else if ext = chars "css" then some (chars "CSS")
  else none

/-- One step of `fileExtensions.forEach`: add the mapped language, if any,
to the `uniqueLanguages` set. -/
def langStep (ls : List (List Char)) (e : List Char) : List (List Char) :=
  match langOf e with
  | some l => insertOnce ls l
  | none => ls

/-- `fileExtensions.forEach` adding each mapped language to the
`uniqueLanguages` set, iterating the extension map keys in order. -/
def uniqueLanguages (ms : List PineconeMatch) : List (List Char) :=
  ((computeStats ms).extCounts.map Prod.fst).foldl langStep []

/-- `${(totalLines / 1000).toFixed(1)}k`, modelled with truncation to one
decimal digit (no claim depends on the rounding direction). -/
def linesDisplay (n : Nat) : List Char :=
  (Nat.repr (n / 1000)).data ++ chars "." ++ (Nat.repr (n % 1000 / 100)).data ++ chars "k"

/-- The `stats` object of the response. -/
structure RepoStats where
  files : Nat
  lines : List Char
  languages : Nat
deriving DecidableEq

/-- `RepositoryMetadata` from `src/lib/types.ts`. -/
structure RepositoryMetadata where
  summary : List Char
  techStack : List (List Char)
  patterns : List (List Char)
  stats : RepoStats
deriving DecidableEq

/-- `namespace || ''`: the effective namespace used for the query. -/
def jsOrEmpty (ns : Option (List Char)) : List Char :=
  match ns with
  | none => []
  | some s => if s.isEmpty then [] else s

/-- Modelled from the spec: the vector-store `query` contract (§4.4/§6), an
external collaborator — `returns up to topK nearest records by similarity`;
the store lists each namespace's records in similarity order and the query
takes the first `topK`, never failing for fewer-than-k records. -/
def queryStore (store : List Char → List PineconeMatch) (ns : List Char)
    (topK : Nat) : List PineconeMatch :=
  (store ns).take topK

/-- The canned zero-context summary string. -/
def cannedSummary : List Char :=
  chars "Repository ingestion completed but no code context could be retrieved. Please ensure the repository was successfully ingested."

/-- The canned zero-context response body. -/
def cannedResponse : RepositoryMetadata :=
  { summary := cannedSummary
  , techStack := []
  , patterns := []
  , stats := ⟨0, chars "0k", 0⟩ }

/-- External collaborators of one summarize call: the vector store (per
namespace, in similarity order), the completion model's result, and
`JSON.parse` as a partial function. -/
structure SummarizeEnv where
  store : List Char → List PineconeMatch
  modelResult : Except (List Char) (List Char)
  parse : List Char → Option Json

/-- HTTP-level result of `POST /summarize`: status, body when the request
produced metadata, and whether the completion model was invoked. -/
structure SummarizeResult where
  status : Nat
  meta : Option RepositoryMetadata
  calledModel : Bool
deriving DecidableEq

/-- The `POST` handler of `src/app/api/summarize/route.ts`: query the top
100 matches of the effective namespace, short-circuit to the canned
response on empty context, otherwise derive the stats and languages, call
the model, and assemble the response from the parsed-or-fallback analysis.
A thrown model error is caught by the outer handler as HTTP 500. -/
def summarizePOST (env : SummarizeEnv) (ns : Option (List Char)) : SummarizeResult :=
  let ms := queryStore env.store (jsOrEmpty ns) 100
  let context := joinContext ms
  if context.isEmpty then ⟨200, some cannedResponse, false⟩
  else
    let acc := computeStats ms
    let langs := uniqueLanguages ms
    match env.modelResult with
    | .error _ => ⟨500, none, true⟩
    | .ok analysisText =>
      let analysis := parseAnalysis env.parse langs analysisText
      ⟨200,
        some
          { summary := analysis.summary
          , techStack := analysis.techStack
          , patterns := analysis.patterns
          , stats := ⟨acc.sources.length, linesDisplay acc.totalLines, langs.length⟩ },
        true⟩

/-- A chat message role. -/
inductive Role where
  | user
  | assistant
deriving DecidableEq

/-- A conversation message (`MessageSchema` in `src/lib/schema.ts`). -/
structure ChatMsg where
  role : Role
  content : List Char
deriving DecidableEq

/-- External collaborator of one chat call: the vector store. -/
structure ChatEnv where
  store : List Char → List PineconeMatch

/-- HTTP-level result of `POST /chat`: status, the context concatenated
into the system prompt, and the message list sent to the model. -/
structure ChatResult where
  status : Nat
  context : List Char
  messages : List ChatMsg
deriving DecidableEq

/-- The `POST` handler of the chat route: validate the message (min length
1), query `topK` matches of the effective namespace (5 in the
`generateText` variant, 10 in the streaming variant), join the truthy match
texts as context, and append the user message to the supplied history. -/
def chatPOST (env : ChatEnv) (topK : Nat) (message : List Char)
    (ns : Option (List Char)) (history : Option (List ChatMsg)) : ChatResult :=
  if message.isEmpty then ⟨400, [], []⟩
  else
    let ms := queryStore env.store (jsOrEmpty ns) topK
    ⟨200, joinContext ms, (history.getD []) ++ [⟨Role.user, message⟩]⟩

/-- A stats response whose `namespaces` object holds namespace `r` with
record count 0 (as after a deletion that left the key behind). -/
def envSkipZero : IngestEnv :=
  { statsNamespaces := some [(chars "r", 0)]
  , loadResult := Except.ok []
  , split := fun ds => ds
  , upsertResult := Except.ok () }

/-- A POST environment whose external URL validator accepts everything. -/
def envPostC3 : IngestPostEnv :=
  { ingest :=
    { statsNamespaces := none
    , loadResult := Except.ok []
    , split := fun ds => ds
    , upsertResult := Except.ok () }
  , isValidUrl := fun _ => true }

example : chars "ab" = ['a', 'b'] := by decide

example : extractRepoName (chars "https://github.com/o/r") = chars "r" := by decide
example : extractRepoName (chars "https://github.com/o/r.git") = chars "r" := by decide
example : extractRepoName (chars "nope") = chars "default" := by decide
example : extractRepoName (chars "https://github.com/o/r/") = chars "default" := by decide
example : extractRepoName (chars "https://github.com/o/.git") = chars ".git" := by decide

lemma afterLast_no_sep (sep : Char) (r : List Char) (h : sep ∉ r) :
    afterLast sep r = none := by
  induction r with
  | nil => rfl
  | cons c cs ih =>
    have hc : ¬(c = sep) := fun he => h (he ▸ List.mem_cons_self c cs)
    have hcs : sep ∉ cs := fun hm => h (List.mem_cons_of_mem c hm)
    unfold afterLast
    rw [ih hcs]
    simp [hc]

lemma afterLast_append_sep (sep : Char) (a r : List Char) (h : sep ∉ r) :
    afterLast sep (a ++ sep :: r) = some r := by
  induction a with
  | nil =>
    simp only [List.nil_append]
    unfold afterLast
    rw [afterLast_no_sep sep r h]
    simp
  | cons c cs ih =>
    simp only [List.cons_append]
    unfold afterLast
    rw [ih]

lemma gitSuffixed_append (r : List Char) (h : r ≠ []) :
    gitSuffixed (r ++ chars ".git") = true := by
  have hg : chars ".git" = ['.', 'g', 'i', 't'] := by decide
  have hlen : (r ++ chars ".git").length = r.length + 4 := by
    rw [hg]; simp
  unfold gitSuffixed
  rw [hlen]
  have hdrop : (r ++ chars ".git").drop (r.length + 4 - 4) = chars ".git" := by
    simp only [Nat.add_sub_cancel]
    exact List.drop_left r (chars ".git")
  rw [hdrop]
  have hpos : 0 < r.length := List.length_pos.mpr h
  simp
  omega

lemma dropGit_append (r : List Char) (h : r ≠ []) :
    dropGit (r ++ chars ".git") = r := by
  unfold dropGit
  rw [gitSuffixed_append r h]
  have hg : chars ".git" = ['.', 'g', 'i', 't'] := by decide
  have hlen : (r ++ chars ".git").length = r.length + 4 := by
    rw [hg]; simp
  rw [if_pos rfl, hlen]
  simp only [Nat.add_sub_cancel]
  exact List.take_left r (chars ".git")

lemma dropGit_of_not_suffixed (r : List Char) (h : gitSuffixed r = false) :
    dropGit r = r := by
  simp [dropGit, h]

/-- C2: `extractRepoName` is a pure function of the URL: for a well-formed
repository segment `r` (non-empty, slash-free, not itself `.git`-suffixed),
both `https://github.com/o/r` and `https://github.com/o/r.git` yield `r`,
and any URL with no non-empty last path segment yields `default`. -/
theorem extractRepoName_spec :
    (∀ (o r : List Char), r ≠ [] → '/' ∉ r → gitSuffixed r = false →
      extractRepoName (chars "https://github.com/" ++ o ++ '/' :: r) = r ∧
      extractRepoName (chars "https://github.com/" ++ o ++ '/' :: (r ++ chars ".git")) = r) ∧
    (∀ u : List Char, (afterLast '/' u = none ∨ afterLast '/' u = some []) →
      extractRepoName u = chars "default") := by
  constructor
  · intro o r hne hsl hgit
    have hassoc : ∀ (x : List Char), chars "https://github.com/" ++ o ++ '/' :: x
        = (chars "https://github.com/" ++ o) ++ '/' :: x := by
      intro x; rw [List.append_assoc]
    constructor
    · rw [hassoc, extractRepoName, afterLast_append_sep '/' _ r hsl]
      cases r with
      | nil => exact absurd rfl hne
      | cons c cs => exact dropGit_of_not_suffixed _ hgit
    · have hsl2 : '/' ∉ r ++ chars ".git" := by
        intro hm
        rcases List.mem_append.mp hm with hm | hm
        · exact hsl hm
        · revert hm; decide
      rw [hassoc, extractRepoName, afterLast_append_sep '/' _ _ hsl2]
      cases hr : r ++ chars ".git" with
      | nil => simp [chars] at hr
      | cons c cs =>
        show dropGit (c :: cs) = r
        rw [← hr]
        exact dropGit_append r hne
  · intro u h
    rcases h with h | h <;> rw [extractRepoName, h]

/-- C2 witness: the namespace derivation at concrete URLs. -/
theorem extractRepoName_spec_witness :
    (extractRepoName (chars "https://github.com/" ++ chars "o" ++ '/' :: chars "repo")
      = chars "repo" ∧
     extractRepoName
        (chars "https://github.com/" ++ chars "o" ++ '/' :: (chars "repo" ++ chars ".git"))
      = chars "repo") ∧
    extractRepoName (chars "x") = chars "default" :=
  ⟨extractRepoName_spec.1 (chars "o") (chars "repo") (by decide) (by decide) (by decide),
   extractRepoName_spec.2 (chars "x") (Or.inl (by decide))⟩

/-- C1 (counterexample): with the namespace key present but record count 0,
`ingestRepo` still skips, so the skip does not happen exactly when
`describeIndexStats` reports the namespace with record count > 0. -/
theorem ingestRepo_skip_not_iff_positive_count :
    ¬ (((ingestRepo (chars "https://github.com/o/r") (chars "tok") envSkipZero).outcome
        = Except.ok IngestOutcome.skipped) ↔
       statsReportsPositive envSkipZero.statsNamespaces
        (extractRepoName (chars "https://github.com/o/r")) = true) := by
  decide

/-- C1 (amended): for inputs passing the ASCII and `github.com` checks,
`ingestRepo` short-circuits to `skipped` exactly when the
`describeIndexStats` response has an entry for the derived namespace
(whatever its record count); on a skip the only external call is
`describeIndexStats` and no vectors are upserted. -/
theorem ingestRepo_skip_guard (repoUrl token : List Char) (env : IngestEnv)
    (hu : allAscii repoUrl = true) (ht : allAscii token = true)
    (hg : containsSub (chars "github.com") repoUrl = true) :
    (((ingestRepo repoUrl token env).outcome = Except.ok IngestOutcome.skipped) ↔
      namespacePresent env.statsNamespaces (extractRepoName repoUrl) = true) ∧
    (namespacePresent env.statsNamespaces (extractRepoName repoUrl) = true →
      (ingestRepo repoUrl token env).calls = [ExtCall.describeStats] ∧
      (ingestRepo repoUrl token env).upserted = 0) := by
  by_cases hp : namespacePresent env.statsNamespaces (extractRepoName repoUrl) = true
  · simp [ingestRepo, hu, ht, hg, hp]
  · simp only [ingestRepo, hu, ht, hg, Bool.not_true, Bool.not_false, if_false, if_true]
    simp [hp]
    cases h1 : env.loadResult with
    | error msg => simp
    | ok docs =>
      cases h2 : env.upsertResult with
      | error m => simp
      | ok u => simp

/-- C1 witness: the amended guard at a concrete skipping input. -/
theorem ingestRepo_skip_guard_witness :
    (((ingestRepo (chars "https://github.com/o/r") (chars "tok") envSkipZero).outcome
        = Except.ok IngestOutcome.skipped) ↔
      namespacePresent envSkipZero.statsNamespaces
        (extractRepoName (chars "https://github.com/o/r")) = true) ∧
    (namespacePresent envSkipZero.statsNamespaces
        (extractRepoName (chars "https://github.com/o/r")) = true →
      (ingestRepo (chars "https://github.com/o/r") (chars "tok") envSkipZero).calls
        = [ExtCall.describeStats] ∧
      (ingestRepo (chars "https://github.com/o/r") (chars "tok") envSkipZero).upserted = 0) :=
  ingestRepo_skip_guard _ _ envSkipZero (by decide) (by decide) (by decide)

/-- C4: a non-ASCII repository URL or token makes `ingestRepo` throw before
any external call: the call trace is empty (no vector-store client use, no
`describeIndexStats`, no load) and the outcome is the corresponding
validation error. -/
theorem ingestRepo_nonAscii_aborts (repoUrl token : List Char) (env : IngestEnv)
    (h : allAscii repoUrl = false ∨ allAscii token = false) :
    (ingestRepo repoUrl token env).calls = [] ∧
    ((ingestRepo repoUrl token env).outcome = Except.error IngestErr.nonAsciiUrl ∨
     (ingestRepo repoUrl token env).outcome = Except.error IngestErr.nonAsciiToken) := by
  rcases h with h | h
  · simp [ingestRepo, h]
  · by_cases hu : allAscii repoUrl = true <;> simp [ingestRepo, h, hu]

/-- C4 witness: a URL containing `é` aborts with an empty call trace. -/
theorem ingestRepo_nonAscii_aborts_witness :
    (ingestRepo (chars "https://github.com/o/ré") (chars "tok") envSkipZero).calls = [] ∧
    ((ingestRepo (chars "https://github.com/o/ré") (chars "tok") envSkipZero).outcome
      = Except.error IngestErr.nonAsciiUrl ∨
     (ingestRepo (chars "https://github.com/o/ré") (chars "tok") envSkipZero).outcome
      = Except.error IngestErr.nonAsciiToken) :=
  ingestRepo_nonAscii_aborts _ _ envSkipZero (Or.inl (by decide))

/-- C3: a request whose `repoUrl` lacks `github.com` (or fails the external
URL validator, or whose token is empty) gets HTTP 400 with `success = false`
and an empty call trace; a validation-passing request maps an ingestion
error to HTTP 500 and a successful ingestion to HTTP 200 with
`success = true`. -/
theorem ingest_POST_status (env : IngestPostEnv) (repoUrl token : List Char) :
    ((containsSub (chars "github.com") repoUrl = false ∨
      env.isValidUrl repoUrl = false ∨ token = []) →
      ingestPOST env repoUrl token = ⟨400, false, []⟩) ∧
    (ingestValidates env.isValidUrl repoUrl token = true →
      ((∃ e, (ingestRepo repoUrl token env.ingest).outcome = Except.error e) →
        (ingestPOST env repoUrl token).status = 500 ∧
        (ingestPOST env repoUrl token).success = false) ∧
      ((∃ o, (ingestRepo repoUrl token env.ingest).outcome = Except.ok o) →
        (ingestPOST env repoUrl token).status = 200 ∧
        (ingestPOST env repoUrl token).success = true)) := by
  constructor
  · intro h
    have hv : ingestValidates env.isValidUrl repoUrl token = false := by
      unfold ingestValidates
      rcases h with h | h | h <;> simp [h]
    simp [ingestPOST, hv]
  · intro hv
    constructor
    · rintro ⟨e, he⟩
      simp [ingestPOST, hv, he]
    · rintro ⟨o, ho⟩
      simp [ingestPOST, hv, ho]

/-- C3 witness: a URL lacking `github.com` yields the 400 response. -/
theorem ingest_POST_status_witness :
    ingestPOST envPostC3 (chars "nope") (chars "tok") = ⟨400, false, []⟩ :=
  (ingest_POST_status envPostC3 (chars "nope") (chars "tok")).1 (Or.inl (by decide))

/-! ### Summarize: zero-context short-circuit (C5) -/

/-- An empty vector store. -/
def envC5 : SummarizeEnv :=
  { store := fun _ => []
  , modelResult := Except.ok []
  , parse := fun _ => none }

/-- C5: when the query yields zero matches, or no match carries text
metadata, summarize returns the canned zero-context response — HTTP 200,
the fixed summary, empty tech stack and patterns, `files = 0`,
`lines = "0k"`, `languages = 0` — without calling the completion model. -/
theorem summarize_zero_context (env : SummarizeEnv) (ns : Option (List Char))
    (h : queryStore env.store (jsOrEmpty ns) 100 = [] ∨
         ∀ m ∈ queryStore env.store (jsOrEmpty ns) 100, matchText m = none) :
    summarizePOST env ns = ⟨200, some cannedResponse, false⟩ ∧
    cannedResponse.stats.files = 0 ∧
    cannedResponse.stats.lines = chars "0k" ∧
    cannedResponse.stats.languages = 0 ∧
    cannedResponse.techStack = [] ∧
    cannedResponse.patterns = [] := by
  have htt : truthyTexts (queryStore env.store (jsOrEmpty ns) 100) = [] := by
    rcases h with h | h
    · rw [truthyTexts, h]; rfl
    · rw [truthyTexts, List.filterMap_eq_nil_iff.mpr h]; rfl
  have hj : joinContext (queryStore env.store (jsOrEmpty ns) 100) = [] := by
    rw [joinContext, htt]; rfl
  refine ⟨?_, rfl, rfl, rfl, rfl, rfl⟩
  simp only [summarizePOST]
  rw [hj]
  rfl

/-- C5 witness: the canned response on an empty store. -/
theorem summarize_zero_context_witness :
    summarizePOST envC5 none = ⟨200, some cannedResponse, false⟩ ∧
    cannedResponse.stats.files = 0 ∧
    cannedResponse.stats.lines = chars "0k" ∧
    cannedResponse.stats.languages = 0 ∧
    cannedResponse.techStack = [] ∧
    cannedResponse.patterns = [] :=
  summarize_zero_context envC5 none (Or.inl (by decide))

/-! ### Summarize: stats characterization (C6) -/

lemma statsStep_sources_none (acc : StatsAcc) (m : PineconeMatch)
    (hs : matchSource m = none) : (statsStep acc m).sources = acc.sources := by
  cases ht : matchText m with
  | none => simp [statsStep, hs, ht]
  | some t => by_cases hte : t.isEmpty = true <;> simp [statsStep, hs, ht, hte]

lemma statsStep_sources_empty (acc : StatsAcc) (m : PineconeMatch) (s : List Char)
    (hs : matchSource m = some s) (hse : s.isEmpty = true) :
    (statsStep acc m).sources = acc.sources := by
  cases ht : matchText m with
  | none => simp [statsStep, hs, ht, hse]
  | some t => by_cases hte : t.isEmpty = true <;> simp [statsStep, hs, ht, hse, hte]

lemma statsStep_sources_some (acc : StatsAcc) (m : PineconeMatch) (s : List Char)
    (hs : matchSource m = some s) (hse : s.isEmpty = false) :
    (statsStep acc m).sources = insertOnce acc.sources s := by
  cases ht : matchText m with
  | none => simp [statsStep, hs, ht, hse]
  | some t => by_cases hte : t.isEmpty = true <;> simp [statsStep, hs, ht, hse, hte]

lemma statsStep_extCounts_none (acc : StatsAcc) (m : PineconeMatch)
    (hs : matchSource m = none) : (statsStep acc m).extCounts = acc.extCounts := by
  cases ht : matchText m with
  | none => simp [statsStep, hs, ht]
  | some t => by_cases hte : t.isEmpty = true <;> simp [statsStep, hs, ht, hte]

lemma statsStep_extCounts_empty (acc : StatsAcc) (m : PineconeMatch) (s : List Char)
    (hs : matchSource m = some s) (hse : s.isEmpty = true) :
    (statsStep acc m).extCounts = acc.extCounts := by
  cases ht : matchText m with
  | none => simp [statsStep, hs, ht, hse]
  | some t => by_cases hte : t.isEmpty = true <;> simp [statsStep, hs, ht, hse, hte]

lemma statsStep_extCounts_some (acc : StatsAcc) (m : PineconeMatch) (s : List Char)
    (hs : matchSource m = some s) (hse : s.isEmpty = false) :
    (statsStep acc m).extCounts = mapBump acc.extCounts (extOf s) := by
  cases ht : matchText m with
  | none => simp [statsStep, hs, ht, hse]
  | some t => by_cases hte : t.isEmpty = true <;> simp [statsStep, hs, ht, hse, hte]

lemma truthySources_cons_none (m : PineconeMatch) (rest : List PineconeMatch)
    (hs : matchSource m = none) :
    truthySources (m :: rest) = truthySources rest := by
  rw [truthySources, List.filterMap_cons, hs, truthySources]

lemma truthySources_cons_empty (m : PineconeMatch) (rest : List PineconeMatch)
    (s : List Char) (hs : matchSource m = some s) (hse : s.isEmpty = true) :
    truthySources (m :: rest) = truthySources rest := by
  rw [truthySources, List.filterMap_cons, hs]
  simp [truthySources, hse]

lemma truthySources_cons_some (m : PineconeMatch) (rest : List PineconeMatch)
    (s : List Char) (hs : matchSource m = some s) (hse : s.isEmpty = false) :
    truthySources (m :: rest) = s :: truthySources rest := by
  rw [truthySources, List.filterMap_cons, hs]
  simp [truthySources, hse]

lemma foldl_statsStep_sources (ms : List PineconeMatch) (acc : StatsAcc) :
    (ms.foldl statsStep acc).sources = (truthySources ms).foldl insertOnce acc.sources := by
  induction ms generalizing acc with
  | nil => rfl
  | cons m rest ih =>
    rw [List.foldl_cons, ih]
    cases hs : matchSource m with
    | none => rw [truthySources_cons_none m rest hs, statsStep_sources_none acc m hs]
    | some s =>
      cases hse : s.isEmpty with
      | true =>
        rw [truthySources_cons_empty m rest s hs hse,
          statsStep_sources_empty acc m s hs hse]
      | false =>
        rw [truthySources_cons_some m rest s hs hse,
          statsStep_sources_some acc m s hs hse, List.foldl_cons]

lemma mapBump_keys (l : List (List Char × Nat)) (e : List Char) :
    (mapBump l e).map Prod.fst = insertOnce (l.map Prod.fst) e := by
  induction l with
  | nil => simp [mapBump, insertOnce]
  | cons kv rest ih =>
    obtain ⟨k, v⟩ := kv
    by_cases hk : k = e
    · subst hk
      simp [mapBump, insertOnce]
    · have hek : ¬(e = k) := fun h => hk h.symm
      rw [show mapBump ((k, v) :: rest) e = (k, v) :: mapBump rest e from by
        simp [mapBump, hk]]
      rw [List.map_cons, ih, List.map_cons]
      by_cases he : e ∈ rest.map Prod.fst <;> simp [insertOnce, he, hek]

lemma foldl_statsStep_extKeys (ms : List PineconeMatch) (acc : StatsAcc) :
    ((ms.foldl statsStep acc).extCounts).map Prod.fst
      = ((truthySources ms).map extOf).foldl insertOnce (acc.extCounts.map Prod.fst) := by
  induction ms generalizing acc with
  | nil => rfl
  | cons m rest ih =>
    rw [List.foldl_cons, ih]
    cases hs : matchSource m with
    | none => rw [truthySources_cons_none m rest hs, statsStep_extCounts_none acc m hs]
    | some s =>
      cases hse : s.isEmpty with
      | true =>
        rw [truthySources_cons_empty m rest s hs hse,
          statsStep_extCounts_empty acc m s hs hse]
      | false =>
        rw [truthySources_cons_some m rest s hs hse,
          statsStep_extCounts_some acc m s hs hse,
          List.map_cons, List.foldl_cons, mapBump_keys]

lemma computeStats_sources (ms : List PineconeMatch) :
    (computeStats ms).sources = jsSetOf (truthySources ms) :=
  foldl_statsStep_sources ms ⟨[], [], 0⟩

lemma computeStats_extKeys (ms : List PineconeMatch) :
    ((computeStats ms).extCounts).map Prod.fst = jsSetOf ((truthySources ms).map extOf) :=
  foldl_statsStep_extKeys ms ⟨[], [], 0⟩

lemma foldl_langStep (ks : List (List Char)) (ls0 : List (List Char)) :
    ks.foldl langStep ls0 = (ks.filterMap langOf).foldl insertOnce ls0 := by
  induction ks generalizing ls0 with
  | nil => rfl
  | cons k rest ih =>
    rw [List.foldl_cons, List.filterMap_cons]
    cases hl : langOf k with
    | none =>
      rw [show langStep ls0 k = ls0 from by simp [langStep, hl], ih]
    | some l =>
      rw [show langStep ls0 k = insertOnce ls0 l from by simp [langStep, hl],
        List.foldl_cons, ih]

lemma uniqueLanguages_eq (ms : List PineconeMatch) :
    uniqueLanguages ms
      = jsSetOf ((jsSetOf ((truthySources ms).map extOf)).filterMap langOf) := by
  rw [uniqueLanguages, computeStats_extKeys, foldl_langStep]
  rfl

/-- Claim-side reading (the claim's words, for comparison with the code):
the number of distinct source metadata values among the matches, empty
strings included. -/
def numDistinctSourceValues (ms : List PineconeMatch) : Nat :=
  (jsSetOf (ms.filterMap matchSource)).length

/-- A match carrying the given source path and text `x`. -/
def srcMatch (src : String) : PineconeMatch :=
  ⟨some ⟨some (chars src), some (chars "x")⟩⟩

/-- A store answering with sources `a.ts`, `b.py`, `a.ts`; the model output
is not JSON, so the analysis keeps its defaults. -/
def envC6ex : SummarizeEnv :=
  { store := fun _ => [srcMatch "a.ts", srcMatch "b.py", srcMatch "a.ts"]
  , modelResult := Except.ok []
  , parse := fun _ => none }

/-- The metadata summarize computes for `envC6ex`. -/
def rC6ex : RepositoryMetadata :=
  { summary := defaultSummary
  , techStack := [chars "TypeScript", chars "Python"]
  , patterns := defaultPatterns
  , stats := ⟨2, chars "0.0k", 2⟩ }

/-- A store whose single match carries the empty string as source. -/
def envC6cx : SummarizeEnv :=
  { store := fun _ => [⟨some ⟨some [], some (chars "x")⟩⟩]
  , modelResult := Except.ok []
  , parse := fun _ => none }

/-- C6 (counterexample): a match whose source metadata is the empty string
is skipped by the truthiness guard, so `stats.files` is not the number of
distinct source metadata values. -/
theorem summarize_files_not_distinct_values :
    ¬ ((summarizePOST envC6cx none).meta.map (fun r => r.stats.files)
        = some (numDistinctSourceValues (queryStore envC6cx.store (jsOrEmpty none) 100))) := by
  decide

/-- C6 (amended): on the model-calling path, `stats.files` is the number of
distinct non-empty source metadata values and `stats.languages` the number
of distinct languages obtained by mapping each distinct file extension of
those sources through the fixed table; for sources `a.ts`, `b.py`, `a.ts`
both counts are 2. -/
theorem summarize_stats :
    (∀ (env : SummarizeEnv) (ns : Option (List Char)) (r : RepositoryMetadata),
      (summarizePOST env ns).meta = some r →
      (summarizePOST env ns).calledModel = true →
      r.stats.files
        = (jsSetOf (truthySources (queryStore env.store (jsOrEmpty ns) 100))).length ∧
      r.stats.languages
        = (jsSetOf ((jsSetOf ((truthySources (queryStore env.store (jsOrEmpty ns) 100)).map
            extOf)).filterMap langOf)).length) ∧
    (summarizePOST envC6ex none).meta.map (fun r => (r.stats.files, r.stats.languages))
      = some (2, 2) := by
  constructor
  · intro env ns r hr hc
    simp only [summarizePOST] at hr hc
    cases hctx : (joinContext (queryStore env.store (jsOrEmpty ns) 100)).isEmpty with
    | true => rw [if_pos hctx] at hc; cases hc
    | false =>
      rw [if_neg (by simp [hctx])] at hr
      cases hm : env.modelResult with
      | error e => rw [hm] at hr; cases hr
      | ok text =>
        rw [hm] at hr
        have hr' := Option.some.inj hr
        rw [← hr']
        exact ⟨(congrArg List.length (computeStats_sources _)),
          (congrArg List.length (uniqueLanguages_eq _))⟩
  · decide

/-- C6 witness: the amended characterization at the `a.ts`, `b.py`, `a.ts`
store. -/
theorem summarize_stats_witness :
    rC6ex.stats.files
      = (jsSetOf (truthySources (queryStore envC6ex.store (jsOrEmpty none) 100))).length ∧
    rC6ex.stats.languages
      = (jsSetOf ((jsSetOf ((truthySources (queryStore envC6ex.store (jsOrEmpty none) 100)).map
          extOf)).filterMap langOf)).length :=
  summarize_stats.1 envC6ex none rC6ex (by decide) (by decide)

/-! ### Summarize: fenced JSON extraction and fallback (C7, C8) -/

/-- A model response fenced as ```` ``` … ``` ````. -/
def fencePlain (s : List Char) : List Char :=
  chars "```" ++ '\n' :: s ++ '\n' :: chars "```"

/-- A model response fenced as ```` ```json … ``` ````. -/
def fenceJson (s : List Char) : List Char :=
  chars "```json" ++ '\n' :: s ++ '\n' :: chars "```"

lemma trimChars_ends (x : List Char) (a b : Char)
    (ha : isJsWhitespace a = false) (hb : isJsWhitespace b = false) :
    trimChars (a :: x ++ [b]) = a :: x ++ [b] := by
  have h1 : List.dropWhile isJsWhitespace (a :: x ++ [b]) = a :: x ++ [b] :=
    List.dropWhile_cons_of_neg (by simp [ha])
  have hrev : (a :: x ++ [b]).reverse = b :: (x.reverse ++ [a]) := by simp
  have h2 : List.dropWhile isJsWhitespace (b :: (x.reverse ++ [a])) = b :: (x.reverse ++ [a]) :=
    List.dropWhile_cons_of_neg (by simp [hb])
  rw [trimChars, h1, hrev, h2, ← hrev, List.reverse_reverse]

lemma trimChars_fenceJson (s : List Char) : trimChars (fenceJson s) = fenceJson s := by
  have hj : chars "```json" = ['`', '`', '`', 'j', 's', 'o', 'n'] := by decide
  have hb : chars "```" = ['`', '`', '`'] := by decide
  rw [fenceJson, hj, hb]
  have hform : ['`', '`', '`', 'j', 's', 'o', 'n'] ++ '\n' :: s ++ '\n' :: ['`', '`', '`']
      = '`' :: (['`', '`', 'j', 's', 'o', 'n', '\n'] ++ s ++ ['\n', '`', '`']) ++ ['`'] := by
    simp
  rw [hform]
  exact trimChars_ends _ '`' '`' (by decide) (by decide)

lemma trimChars_fencePlain (s : List Char) : trimChars (fencePlain s) = fencePlain s := by
  have hb : chars "```" = ['`', '`', '`'] := by decide
  rw [fencePlain, hb]
  have hform : ['`', '`', '`'] ++ '\n' :: s ++ '\n' :: ['`', '`', '`']
      = '`' :: (['`', '`', '\n'] ++ s ++ ['\n', '`', '`']) ++ ['`'] := by
    simp
  rw [hform]
  exact trimChars_ends _ '`' '`' (by decide) (by decide)

lemma dropLeadingFence_fenceJson (s : List Char) :
    dropLeadingFence (fenceJson s) = s ++ '\n' :: chars "```" := rfl

lemma dropLeadingFence_fencePlain (s : List Char) :
    dropLeadingFence (fencePlain s) = s ++ '\n' :: chars "```" := rfl

lemma dropTrailingFence_append (s : List Char) :
    dropTrailingFence (s ++ '\n' :: chars "```") = s := by
  have hb : chars "```" = ['`', '`', '`'] := by decide
  have hrev : (s ++ '\n' :: chars "```").reverse = '`' :: '`' :: '`' :: '\n' :: s.reverse := by
    rw [hb]; simp
  rw [dropTrailingFence, hrev]
  rw [if_pos (show leadsWith ((chars "\n```").reverse)
      ('`' :: '`' :: '`' :: '\n' :: s.reverse) = true from rfl)]
  show s.reverse.reverse = s
  exact List.reverse_reverse s

lemma stripFence_fenceJson (s : List Char) : stripFence (fenceJson s) = s := by
  simp only [stripFence]
  rw [trimChars_fenceJson]
  rw [if_pos (show leadsWith (chars "```") (fenceJson s) = true from rfl)]
  rw [dropLeadingFence_fenceJson, dropTrailingFence_append]

lemma stripFence_fencePlain (s : List Char) : stripFence (fencePlain s) = s := by
  simp only [stripFence]
  rw [trimChars_fencePlain]
  rw [if_pos (show leadsWith (chars "```") (fencePlain s) = true from rfl)]
  rw [dropLeadingFence_fencePlain, dropTrailingFence_append]

lemma jsonStrings_map_str (ts : List (List Char)) : jsonStrings (ts.map Json.str) = ts := by
  induction ts with
  | nil => rfl
  | cons t rest ih =>
    rw [List.map_cons, jsonStrings, List.filterMap_cons]
    show t :: jsonStrings (rest.map Json.str) = t :: rest
    rw [ih]

/-- The computed-path result of summarize once the model answered. -/
lemma summarizePOST_model_ok (env : SummarizeEnv) (ns : Option (List Char)) (raw : List Char)
    (hce : (joinContext (queryStore env.store (jsOrEmpty ns) 100)).isEmpty = false)
    (hm : env.modelResult = Except.ok raw) :
    summarizePOST env ns =
      ⟨200,
       some
        { summary := (parseAnalysis env.parse
            (uniqueLanguages (queryStore env.store (jsOrEmpty ns) 100)) raw).summary
        , techStack := (parseAnalysis env.parse
            (uniqueLanguages (queryStore env.store (jsOrEmpty ns) 100)) raw).techStack
        , patterns := (parseAnalysis env.parse
            (uniqueLanguages (queryStore env.store (jsOrEmpty ns) 100)) raw).patterns
        , stats :=
          ⟨(computeStats (queryStore env.store (jsOrEmpty ns) 100)).sources.length
          , linesDisplay (computeStats (queryStore env.store (jsOrEmpty ns) 100)).totalLines
          , (uniqueLanguages (queryStore env.store (jsOrEmpty ns) 100)).length⟩ },
       true⟩ := by
  simp only [summarizePOST, hm]
  rw [if_neg (by simp [hce])]

lemma parseAnalysis_fields (parse : List Char → Option Json) (dt : List (List Char))
    (raw s sum : List Char) (v : Json) (ts ps : List (List Char))
    (hsf : stripFence raw = s) (hp : parse s = some v)
    (hsum : jsonField v (chars "summary") = some (Json.str sum)) (hsne : sum ≠ [])
    (hts : jsonField v (chars "techStack") = some (Json.arr (ts.map Json.str)))
    (hps : jsonField v (chars "patterns") = some (Json.arr (ps.map Json.str))) :
    parseAnalysis parse dt raw = ⟨sum, ts, ps⟩ := by
  have hsie : sum.isEmpty = false := by
    cases sum with
    | nil => exact absurd rfl hsne
    | cons a l => rfl
  simp only [parseAnalysis, hsf, hp, hsum, hts, hps, hsie, jsonStrings_map_str]
  rfl

lemma parseAnalysis_none (parse : List Char → Option Json) (dt : List (List Char))
    (raw : List Char) (hp : parse (stripFence raw) = none) :
    parseAnalysis parse dt raw = ⟨defaultSummary, dt, defaultPatterns⟩ := by
  simp only [parseAnalysis, hp]

lemma parseAnalysis_summary_fallback (parse : List Char → Option Json)
    (dt : List (List Char)) (raw : List Char) (v : Json)
    (hp : parse (stripFence raw) = some v)
    (h : isTruthyStrField (jsonField v (chars "summary")) = false) :
    (parseAnalysis parse dt raw).summary = defaultSummary := by
  simp only [parseAnalysis, hp]
  cases hf : jsonField v (chars "summary") with
  | none => rfl
  | some j =>
    cases j with
    | str s =>
      rw [hf] at h
      have hse : s.isEmpty = true := by
        simpa [isTruthyStrField] using h
      simp [hse]
    | num n => rfl
    | bool b => rfl
    | null => rfl
    | arr xs => rfl
    | obj fields => rfl

lemma parseAnalysis_tech_fallback (parse : List Char → Option Json)
    (dt : List (List Char)) (raw : List Char) (v : Json)
    (hp : parse (stripFence raw) = some v)
    (h : isArrField (jsonField v (chars "techStack")) = false) :
    (parseAnalysis parse dt raw).techStack = dt := by
  simp only [parseAnalysis, hp]
  cases hf : jsonField v (chars "techStack") with
  | none => rfl
  | some j =>
    cases j with
    | str s => rfl
    | num n => rfl
    | bool b => rfl
    | null => rfl
    | arr xs => rw [hf] at h; simp [isArrField] at h
    | obj fields => rfl

lemma parseAnalysis_patterns_fallback (parse : List Char → Option Json)
    (dt : List (List Char)) (raw : List Char) (v : Json)
    (hp : parse (stripFence raw) = some v)
    (h : isArrField (jsonField v (chars "patterns")) = false) :
    (parseAnalysis parse dt raw).patterns = defaultPatterns := by
  simp only [parseAnalysis, hp]
  cases hf : jsonField v (chars "patterns") with
  | none => rfl
  | some j =>
    cases j with
    | str s => rfl
    | num n => rfl
    | bool b => rfl
    | null => rfl
    | arr xs => rw [hf] at h; simp [isArrField] at h
    | obj fields => rfl

/-- The parsed object `\x7b"summary":"x","techStack":["Go"],"patterns":["p"]\x7d`. -/
def vC7 : Json :=
  Json.obj
    [ (chars "summary", Json.str (chars "x"))
    , (chars "techStack", Json.arr [Json.str (chars "Go")])
    , (chars "patterns", Json.arr [Json.str (chars "p")]) ]

/-- A summarize environment whose model answers with a fenced payload that
parses to `vC7`. -/
def envC7 : SummarizeEnv :=
  { store := fun _ => [⟨some ⟨none, some (chars "ctx")⟩⟩]
  , modelResult := Except.ok (fenceJson (chars "payload"))
  , parse := fun _ => some vC7 }

/-- The parsed object with an empty-string summary. -/
def vC7cx : Json :=
  Json.obj
    [ (chars "summary", Json.str [])
    , (chars "techStack", Json.arr [])
    , (chars "patterns", Json.arr []) ]

/-- Like `envC7` but the parsed JSON's summary is the empty string. -/
def envC7cx : SummarizeEnv :=
  { store := fun _ => [⟨some ⟨none, some (chars "x")⟩⟩]
  , modelResult := Except.ok (fenceJson (chars "payload"))
  , parse := fun _ => some vC7cx }

/-- C7 (counterexample): for a fenced valid JSON whose summary is the empty
string (a string nonetheless), summarize does not return that JSON's
summary — JS truthiness makes it fall back to the default summary. -/
theorem summarize_fenced_empty_summary_not_extracted :
    (summarizePOST envC7cx none).meta.map (fun r => r.summary) = some defaultSummary ∧
    ¬ ((summarizePOST envC7cx none).meta.map (fun r => r.summary) = some []) := by
  constructor
  · decide
  · decide

/-- C7 (amended): for a model response fenced as ```` ```json … ``` ```` or
```` ``` … ``` ```` around a payload that parses to JSON with a non-empty
string `summary` and all-string `techStack` and `patterns` arrays,
summarize strips the fence, parses the payload, and returns exactly those
fields. -/
theorem summarize_fenced_json_extracted (env : SummarizeEnv) (ns : Option (List Char))
    (s sum : List Char) (v : Json) (ts ps : List (List Char))
    (hctx : joinContext (queryStore env.store (jsOrEmpty ns) 100) ≠ [])
    (hm : env.modelResult = Except.ok (fenceJson s) ∨
          env.modelResult = Except.ok (fencePlain s))
    (hp : env.parse s = some v)
    (hsum : jsonField v (chars "summary") = some (Json.str sum)) (hsne : sum ≠ [])
    (hts : jsonField v (chars "techStack") = some (Json.arr (ts.map Json.str)))
    (hps : jsonField v (chars "patterns") = some (Json.arr (ps.map Json.str))) :
    (summarizePOST env ns).meta.map (fun r => r.summary) = some sum ∧
    (summarizePOST env ns).meta.map (fun r => r.techStack) = some ts ∧
    (summarizePOST env ns).meta.map (fun r => r.patterns) = some ps := by
  have hce : (joinContext (queryStore env.store (jsOrEmpty ns) 100)).isEmpty = false := by
    cases hcl : joinContext (queryStore env.store (jsOrEmpty ns) 100) with
    | nil => exact absurd hcl hctx
    | cons c rest => rfl
  rcases hm with hm | hm
  · rw [summarizePOST_model_ok env ns (fenceJson s) hce hm,
      parseAnalysis_fields env.parse _ (fenceJson s) s sum v ts ps
        (stripFence_fenceJson s) hp hsum hsne hts hps]
    exact ⟨rfl, rfl, rfl⟩
  · rw [summarizePOST_model_ok env ns (fencePlain s) hce hm,
      parseAnalysis_fields env.parse _ (fencePlain s) s sum v ts ps
        (stripFence_fencePlain s) hp hsum hsne hts hps]
    exact ⟨rfl, rfl, rfl⟩

/-- C7 witness: the fenced payload parsing to
`\x7b"summary":"x","techStack":["Go"],"patterns":["p"]\x7d` is returned
verbatim. -/
theorem summarize_fenced_json_extracted_witness :
    (summarizePOST envC7 none).meta.map (fun r => r.summary) = some (chars "x") ∧
    (summarizePOST envC7 none).meta.map (fun r => r.techStack) = some [chars "Go"] ∧
    (summarizePOST envC7 none).meta.map (fun r => r.patterns) = some [chars "p"] :=
  summarize_fenced_json_extracted envC7 none (chars "payload") (chars "x") vC7
    [chars "Go"] [chars "p"] (by decide) (Or.inl rfl) rfl rfl (by decide) rfl rfl

/-- A summarize environment whose model output is not JSON. -/
def envC8 : SummarizeEnv :=
  { store := fun _ => [⟨some ⟨some (chars "a.ts"), some (chars "x")⟩⟩]
  , modelResult := Except.ok (chars "not json at all")
  , parse := fun _ => none }

/-- C8: when the model's text does not parse as JSON, and field-by-field
when a parsed field is missing or malformed, summarize falls back to the
defaults — the extension-derived tech stack, the fixed generic summary and
the fixed three-item patterns list — and returns HTTP 200; the parse error
is never surfaced. -/
theorem summarize_parse_fallback (env : SummarizeEnv) (ns : Option (List Char))
    (raw : List Char)
    (hctx : joinContext (queryStore env.store (jsOrEmpty ns) 100) ≠ [])
    (hm : env.modelResult = Except.ok raw) :
    (summarizePOST env ns).status = 200 ∧
    defaultPatterns.length = 3 ∧
    (env.parse (stripFence raw) = none →
      (summarizePOST env ns).meta.map (fun r => r.summary) = some defaultSummary ∧
      (summarizePOST env ns).meta.map (fun r => r.techStack)
        = some (uniqueLanguages (queryStore env.store (jsOrEmpty ns) 100)) ∧
      (summarizePOST env ns).meta.map (fun r => r.patterns) = some defaultPatterns) ∧
    (∀ v : Json, env.parse (stripFence raw) = some v →
      (isTruthyStrField (jsonField v (chars "summary")) = false →
        (summarizePOST env ns).meta.map (fun r => r.summary) = some defaultSummary) ∧
      (isArrField (jsonField v (chars "techStack")) = false →
        (summarizePOST env ns).meta.map (fun r => r.techStack)
          = some (uniqueLanguages (queryStore env.store (jsOrEmpty ns) 100))) ∧
      (isArrField (jsonField v (chars "patterns")) = false →
        (summarizePOST env ns).meta.map (fun r => r.patterns) = some defaultPatterns)) := by
  have hce : (joinContext (queryStore env.store (jsOrEmpty ns) 100)).isEmpty = false := by
    cases hcl : joinContext (queryStore env.store (jsOrEmpty ns) 100) with
    | nil => exact absurd hcl hctx
    | cons c rest => rfl
  rw [summarizePOST_model_ok env ns raw hce hm]
  refine ⟨rfl, rfl, ?_, ?_⟩
  · intro hp
    rw [parseAnalysis_none env.parse _ raw hp]
    exact ⟨rfl, rfl, rfl⟩
  · intro v hp
    refine ⟨fun h => ?_, fun h => ?_, fun h => ?_⟩
    · exact congrArg some (parseAnalysis_summary_fallback env.parse _ raw v hp h)
    · exact congrArg some (parseAnalysis_tech_fallback env.parse _ raw v hp h)
    · exact congrArg some (parseAnalysis_patterns_fallback env.parse _ raw v hp h)

/-- C8 witness: a non-JSON model output keeps all defaults with HTTP 200. -/
theorem summarize_parse_fallback_witness :
    (summarizePOST envC8 none).status = 200 ∧
    (summarizePOST envC8 none).meta.map (fun r => r.summary) = some defaultSummary ∧
    (summarizePOST envC8 none).meta.map (fun r => r.techStack)
      = some (uniqueLanguages (queryStore envC8.store (jsOrEmpty none) 100)) ∧
    (summarizePOST envC8 none).meta.map (fun r => r.patterns) = some defaultPatterns :=
  have h := summarize_parse_fallback envC8 none (chars "not json at all")
    (by decide) rfl
  ⟨h.1, h.2.2.1 rfl⟩

/-! ### Chat retrieval (C9) and default namespace (C10) -/

/-- Three matches carrying texts `a`, `b`, `c`. -/
def msC9 : List PineconeMatch :=
  [ ⟨some ⟨none, some (chars "a")⟩⟩
  , ⟨some ⟨none, some (chars "b")⟩⟩
  , ⟨some ⟨none, some (chars "c")⟩⟩ ]

/-- A store holding exactly the three `msC9` records in every namespace. -/
def chatEnvC9 : ChatEnv := { store := fun _ => msC9 }

/-- C9: querying with topK = 5 against a namespace holding only 3 records
yields all 3 matches, the assembled context is the `\n\n`-joined
concatenation of their text fields, and fewer-than-topK results produce a
normal 200 response, not an error. -/
theorem chat_fewer_than_topk (env : ChatEnv) (msg : List Char) (ns : Option (List Char))
    (history : Option (List ChatMsg)) (ms : List PineconeMatch)
    (hmsg : msg ≠ []) (hms : env.store (jsOrEmpty ns) = ms) (hlen : ms.length = 3)
    (hall : ∀ m ∈ ms, matchText m ≠ none ∧ matchText m ≠ some []) :
    queryStore env.store (jsOrEmpty ns) 5 = ms ∧
    (chatPOST env 5 msg ns history).status = 200 ∧
    (chatPOST env 5 msg ns history).context
      = List.intercalate (chars "\n\n") (ms.filterMap matchText) := by
  have hq : queryStore env.store (jsOrEmpty ns) 5 = ms := by
    rw [queryStore, hms]
    exact List.take_of_length_le (by omega)
  have hmne : msg.isEmpty = false := by
    cases msg with
    | nil => exact absurd rfl hmsg
    | cons a l => rfl
  have htt : truthyTexts ms = ms.filterMap matchText := by
    rw [truthyTexts]
    apply List.filter_eq_self.mpr
    intro t ht
    rcases List.mem_filterMap.mp ht with ⟨m, hmem, hmt⟩
    rcases hall m hmem with ⟨h1, h2⟩
    cases t with
    | nil => exact absurd hmt h2
    | cons a l => rfl
  refine ⟨hq, ?_, ?_⟩
  · simp [chatPOST, hmne]
  · simp [chatPOST, hmne, joinContext, hq, htt]

/-- C9 witness: the 3-record store queried with topK = 5. -/
theorem chat_fewer_than_topk_witness :
    queryStore chatEnvC9.store (jsOrEmpty none) 5 = msC9 ∧
    (chatPOST chatEnvC9 5 (chars "hi") none none).status = 200 ∧
    (chatPOST chatEnvC9 5 (chars "hi") none none).context
      = List.intercalate (chars "\n\n") (msC9.filterMap matchText) :=
  chat_fewer_than_topk chatEnvC9 (chars "hi") none none msC9
    (by decide) rfl (by decide) (by decide)

/-- C10: an omitted (or `undefined`) namespace and an explicitly empty
namespace both query the empty-string default namespace via
`namespace || ''`, so chat and summarize behave identically in the two
cases. -/
theorem namespace_empty_equivalence :
    jsOrEmpty none = ([] : List Char) ∧
    jsOrEmpty (some []) = ([] : List Char) ∧
    (∀ (env : ChatEnv) (topK : Nat) (msg : List Char) (h : Option (List ChatMsg)),
      chatPOST env topK msg none h = chatPOST env topK msg (some []) h) ∧
    (∀ env : SummarizeEnv, summarizePOST env none = summarizePOST env (some [])) :=
  ⟨rfl, rfl, fun _ _ _ _ => rfl, fun _ => rfl⟩

end CodebaseIntel
